import Mathlib

/-!
Shallow embedding of the numeric utility layer of `lineax` (`lineax/_misc.py`),
together with the fragment of the solve API exercised by the test suite.

Modelling conventions:
* a JAX array leaf is a list of complex scalars (real inputs embed via `ℂ`);
* a pytree is abstracted by its sequence of leaves, in the order
  `jax.tree_util.tree_leaves` returns them — every operation in `_misc.py`
  relevant here acts only on that leaf sequence;
* machine floats are modelled by exact real/rational arithmetic, so there are
  no NaN or infinite values in the embedding; operations that raise in JAX
  (shape errors, reductions over empty data) return `none`.
-/

/-- A JAX array leaf: a flat vector of complex scalars. -/
abbrev Leaf : Type := List ℂ

/-- A pytree of arrays, abstracted by its leaf sequence
(`jax.tree_util.tree_leaves` order). -/
abbrev PyTree : Type := List Leaf

/-- `jnp.isinf` on a real scalar. The embedding uses exact real arithmetic,
which has no infinite values, so this predicate is constantly false; it is kept
so that the guard of `_two_norm_jvp` has the same shape as the source. -/
def jnp_isinf (_ : ℝ) : Prop := False

/-- `_two_norm(x)`: `x_sq = jnp.real(x * jnp.conj(x)); sqrt(jnp.sum(x_sq))`. -/
noncomputable def _two_norm (x : Leaf) : ℝ :=
  Real.sqrt ((x.map fun z => (z * star z).re).sum)

/-- `jnp.dot` of two 1-D vectors: elementwise products summed, no conjugation. -/
noncomputable def jnp_dot (a b : Leaf) : ℂ :=
  (List.zipWith (fun u v => u * v) a b).sum

open Classical in
/-- `_two_norm_jvp(x, tx)`: the custom JVP rule attached to `_two_norm`.
Returns `(out, t_out)` where `out = _two_norm x`,
`pred = (out == 0) | jnp.isinf(out)`,
`numerator = where(pred, 0, dot(x, tx))`, `denominator = where(pred, 1, out)`,
and `t_out = numerator / denominator`. -/
noncomputable def _two_norm_jvp (x tx : Leaf) : ℝ × ℂ :=
  let out := _two_norm x
  let pred : Prop := out = 0 ∨ jnp_isinf out
  let numerator : ℂ := if pred then 0 else jnp_dot x tx
  let denominator : ℝ := if pred then 1 else out
  (out, numerator / (denominator : ℂ))

/-- `two_norm(x)`: ravel the pytree; `jnp.array(0.0)` if the ravelled vector has
size 0, else `_two_norm` of it. -/
noncomputable def two_norm (x : PyTree) : ℝ :=
  let v := x.flatten
  if v.length = 0 then (0 : ℝ) else _two_norm v

/-- The JVP of `two_norm` as JAX traces it: in the `x.size == 0` branch the
output is the constant `jnp.array(0.0)`, whose tangent is zero and whose
computation never reaches the custom rule `_two_norm_jvp`; otherwise the custom
rule fires on the ravelled vector and its tangent. -/
noncomputable def two_norm_jvp (x tx : PyTree) : ℝ × ℂ :=
  if x.flatten.length = 0 then ((0 : ℝ), (0 : ℂ)) else _two_norm_jvp x.flatten tx.flatten

/-- `jnp.vdot` of two 1-D vectors: conjugate-linear in the first argument;
mismatching sizes are a shape error (`none`). -/
noncomputable def jnp_vdot (a b : Leaf) : Option ℂ :=
  if a.length = b.length then
    some ((List.zipWith (fun u v => star u * v) a b).sum)
  else none

/-- `tree_dot(a, b)`: `assert len(leaves a) == len(leaves b)`, then
`sum(jnp.vdot(ai, bi) for ai, bi in zip(...))`. The failed assertion and any
leaf-level shape error surface as `none`. -/
noncomputable def tree_dot (a b : PyTree) : Option ℂ :=
  if a.length = b.length then
    ((a.zip b).mapM fun p => jnp_vdot p.1 p.2).map List.sum
  else none

/-- `jnp.max(jnp.abs(xi))` for one leaf: the maximum reduction has no identity,
so a zero-size leaf is an error (`none`). -/
noncomputable def jnp_max_abs (l : Leaf) : Option ℝ :=
  (l.map Complex.abs).max?

/-- `max_norm(x)`: build the list of per-leaf maxima, then reduce it with
`jnp.maximum` via `tree_reduce`; reducing an empty list with no initial value is
an error (`none`), as is any failing per-leaf maximum. -/
noncomputable def max_norm (x : PyTree) : Option ℝ :=
  (x.mapM jnp_max_abs).bind fun ms => ms.max?

/-- The value claim C10 predicts for `max_norm` on a container with at least one
leaf: the maximum absolute value over all elements of all leaves. -/
noncomputable def claimed_max_norm (x : PyTree) : Option ℝ :=
  (x.flatten.map Complex.abs).max?

/-- JAX numeric dtypes relevant to `_misc.py`. -/
inductive DType : Type
  | bool
  | int32
  | int64
  | float32
  | float64
  | complex64
  | complex128
deriving DecidableEq

/-- `jnp.issubdtype(d, jnp.inexact)`: floating-point or complex. -/
def DType.isInexact : DType → Bool
  | .float32 => true
  | .float64 => true
  | .complex64 => true
  | .complex128 => true
  | _ => false

/-- `jnp.finfo(dtype).eps`: the machine epsilon of a floating dtype (for complex
dtypes, of the underlying real dtype); `jnp.finfo` of a non-float dtype is an
error (`none`). -/
def finfo_eps : DType → Option ℚ
  | .float32 => some (1 / 2 ^ 23)
  | .complex64 => some (1 / 2 ^ 23)
  | .float64 => some (1 / 2 ^ 52)
  | .complex128 => some (1 / 2 ^ 52)
  | _ => none

/-- `resolve_rcond(rcond, n, m, dtype)`: `finfo(dtype).eps * max(n, m)` when
`rcond is None`, else `jnp.where(rcond < 0, finfo(dtype).eps, rcond)`. -/
def resolve_rcond (rcond : Option ℚ) (n m : ℕ) (dtype : DType) : Option ℚ :=
  match rcond with
  | none => (finfo_eps dtype).map fun eps => eps * ((max n m : ℕ) : ℚ)
  | some r => (finfo_eps dtype).map fun eps => if r < 0 then eps else r

/-- The differentiation mode `jacobian` selects. -/
inductive JacMode : Type
  | fwd
  | rev
deriving DecidableEq

/-- The mode chosen by `jacobian(fn, in_size, out_size)`: forward when
`(in_size < 100) or (in_size <= 1.5 * out_size)`, else reverse. -/
def jacobian_mode (in_size out_size : ℕ) : JacMode :=
  if in_size < 100 ∨ (in_size : ℚ) ≤ 3 / 2 * (out_size : ℚ) then .fwd else .rev

/-- `jax.jacfwd` applied to the linear function `fun v => A.mulVec v`: the
Jacobian is built column by column, column `j` being one JVP of the function
against the `j`-th basis vector. -/
def jacfwd {m n : ℕ} (A : Matrix (Fin m) (Fin n) ℚ) : Matrix (Fin m) (Fin n) ℚ :=
  Matrix.of fun i j => A.mulVec (Pi.single j 1) i

/-- `jax.jacrev` applied to the linear function `fun v => A.mulVec v`: the
Jacobian is built row by row, row `i` being one VJP of the function against the
`i`-th basis covector. -/
def jacrev {m n : ℕ} (A : Matrix (Fin m) (Fin n) ℚ) : Matrix (Fin m) (Fin n) ℚ :=
  Matrix.of fun i j => Matrix.vecMul (Pi.single i 1) A j

/-- `jacobian(fn, in_size, out_size)` on a linear function represented by its
matrix: apply `jax.jacfwd` or `jax.jacrev` according to the size heuristic. -/
def jacobian {m n : ℕ} (A : Matrix (Fin m) (Fin n) ℚ) (in_size out_size : ℕ) :
    Matrix (Fin m) (Fin n) ℚ :=
  match jacobian_mode in_size out_size with
  | .fwd => jacfwd A
  | .rev => jacrev A

/-- A scalar JAX value: its dtype (`jnp.result_type` of the input) together with
its numeric value. -/
structure JValue : Type where
  dtype : DType
  val : ℂ

/-- `default_floating_dtype()`: `jnp.float64` if `jax.config.jax_enable_x64` is
set process-wide, else `jnp.float32`. -/
def default_floating_dtype (x64 : Bool) : DType :=
  if x64 then DType.float64 else DType.float32

/-- `_asarray(dtype, x)`: cast `x` to the requested dtype. -/
def _asarray (dtype : DType) (x : JValue) : JValue :=
  { dtype := dtype, val := x.val }

/-- `_asarray_jvp(dtype, x, tx)`: the custom JVP of `_asarray` — the primal and
the tangent are both the cast. -/
def _asarray_jvp (dtype : DType) (x tx : JValue) : JValue × JValue :=
  (_asarray dtype x, _asarray dtype tx)

/-- `inexact_asarray(x)`: keep `jnp.result_type(x)` if it is already inexact,
else substitute the default floating dtype, then cast through `_asarray`. -/
def inexact_asarray (x64 : Bool) (x : JValue) : JValue :=
  let dtype := x.dtype
  let dtype := if (x.dtype).isInexact then dtype else default_floating_dtype x64
  _asarray dtype x

/-- One call through a `functools.lru_cache(maxsize)`-memoized function `f`.
The cache is kept most-recently-used first: a hit returns the stored value and
moves its entry to the front; a miss computes `f k`, stores it at the front and
evicts beyond `maxsize` entries from the least-recently-used end. -/
def lruCall {K V : Type} [DecidableEq K] (f : K → V) (maxsize : ℕ)
    (cache : List (K × V)) (k : K) : V × List (K × V) :=
  match cache.find? (fun p => decide (p.1 = k)) with
  | some p => (p.2, p :: cache.eraseP (fun q => decide (q.1 = k)))
  | none => (f k, ((k, f k) :: cache).take maxsize)

/-- `cached_eval_shape(fn, *args, **kwargs)`: map the call to its structural
signature (`_to_struct` over the flattened `(fn, args, kwargs)`), then evaluate
`_cached_eval_shape` — `eqx.filter_eval_shape` memoized by
`functools.lru_cache(maxsize=128)`. `sig` models the structural-signature
extraction and `eval` the shape inference itself, which by construction sees
only the structural signature. Returns the result and the updated cache. -/
def cached_eval_shape {A K V : Type} [DecidableEq K] (sig : A → K)
    (eval : K → V) (cache : List (K × V)) (x : A) : V × List (K × V) :=
  lruCall eval 128 cache (sig x)

/-- Cache validity: every stored entry holds exactly what direct evaluation of
its key returns. -/
def cacheOK {K V : Type} (f : K → V) (cache : List (K × V)) : Prop :=
  ∀ p ∈ cache, p.2 = f p.1

/-- Modelled from the spec: `linear_solve` (§4.4) and `PyTreeLinearOperator`
(§4.2) are not part of the visible source slice. Per the spec, for a well-posed
square system the dispatcher returns the unique solution of `A x = b`, and a
pytree operator acts as the dense matrix obtained by flattening its blocks. For
the 2×2 operator `[[a11, a12], [a21, a22]]` the unique solution is given by the
closed form below; a singular matrix has no unique solution (`none`). -/
def linear_solve_2x2 (a11 a12 a21 a22 b1 b2 : ℚ) : Option (ℚ × ℚ) :=
  let det := a11 * a22 - a12 * a21
  if det = 0 then none
  else some ((b1 * a22 - a12 * b2) / det, (a11 * b2 - b1 * a21) / det)

open Classical in
/-- C1: for every input vector `x` and tangent `tx`, `_two_norm_jvp` returns the
primal norm `_two_norm x` together with the directional derivative
`dot(x, tx) / two_norm(x)`, except that when the norm is `0` (or infinite, which
exact real arithmetic cannot produce) the tangent is exactly `0`; moreover the
denominator of the division it performs is never zero, so no NaN can arise. -/
theorem C1_two_norm_jvp_directional (x tx : Leaf) :
    _two_norm_jvp x tx =
      (_two_norm x,
        if _two_norm x = 0 then 0 else jnp_dot x tx / ((_two_norm x : ℝ) : ℂ)) ∧
    (if _two_norm x = 0 ∨ jnp_isinf (_two_norm x) then (1 : ℝ) else _two_norm x) ≠ 0 := by
  unfold _two_norm_jvp
  by_cases h : _two_norm x = 0
  · simp [h, jnp_isinf]
  · simp [h, jnp_isinf]

/-- C2: solving the 2×2 system `[[1, 5], [-2, -2]] @ x = [3, 4]` returns
`x = (-3.25, 1.25)`; this solution indeed satisfies both equations. -/
theorem C2_concrete_2x2_solve :
    linear_solve_2x2 1 5 (-2) (-2) 3 4 = some (-(13 / 4), 5 / 4) ∧
    1 * (-(13 / 4) : ℚ) + 5 * (5 / 4) = 3 ∧
    (-2 : ℚ) * (-(13 / 4)) + (-2 : ℚ) * (5 / 4) = 4 := by
  refine ⟨?_, by norm_num, by norm_num⟩
  unfold linear_solve_2x2
  norm_num

/-- C3: `resolve_rcond` returns `eps(dtype) * max(n, m)` when no tolerance is
supplied, substitutes `eps(dtype)` for a negative supplied tolerance, and
returns any non-negative supplied tolerance unchanged. -/
theorem C3_resolve_rcond (n m : ℕ) (d : DType) (eps r : ℚ)
    (h : finfo_eps d = some eps) :
    resolve_rcond none n m d = some (eps * ((max n m : ℕ) : ℚ)) ∧
    (r < 0 → resolve_rcond (some r) n m d = some eps) ∧
    (0 ≤ r → resolve_rcond (some r) n m d = some r) := by
  refine ⟨by simp [resolve_rcond, h], fun hr => ?_, fun hr => ?_⟩
  · simp [resolve_rcond, h, hr]
  · simp [resolve_rcond, h, not_lt.mpr hr]

/-- C3 witness: the three branches at concrete inputs, `float32` dtype,
`n = 3`, `m = 5`, supplied tolerances `-1` and `2`. -/
theorem C3_resolve_rcond_witness :
    resolve_rcond none 3 5 DType.float32 = some ((1 / 2 ^ 23) * ((max 3 5 : ℕ) : ℚ)) ∧
    resolve_rcond (some (-1)) 3 5 DType.float32 = some (1 / 2 ^ 23) ∧
    resolve_rcond (some 2) 3 5 DType.float32 = some 2 :=
  ⟨(C3_resolve_rcond 3 5 DType.float32 (1 / 2 ^ 23) 0 rfl).1,
   (C3_resolve_rcond 3 5 DType.float32 (1 / 2 ^ 23) (-1) rfl).2.1 (by norm_num),
   (C3_resolve_rcond 3 5 DType.float32 (1 / 2 ^ 23) 2 rfl).2.2 (by norm_num)⟩

/-- C4: `jacobian` selects forward mode exactly when
`in_size < 100 or in_size <= 1.5 * out_size` and reverse mode otherwise, and the
Jacobian computed is the same matrix either way (both equal `A`). -/
theorem C4_jacobian_heuristic {m n : ℕ} (A : Matrix (Fin m) (Fin n) ℚ)
    (in_size out_size : ℕ) :
    (jacobian_mode in_size out_size = JacMode.fwd ↔
      in_size < 100 ∨ (in_size : ℚ) ≤ 3 / 2 * (out_size : ℚ)) ∧
    jacobian A in_size out_size = A ∧ jacfwd A = A ∧ jacrev A = A := by
  have hf : jacfwd A = A := by
    ext i j
    simp [jacfwd, Matrix.mulVec_single]
  have hr : jacrev A = A := by
    ext i j
    simp [jacrev, Matrix.single_vecMul]
  refine ⟨?_, ?_, hf, hr⟩
  · unfold jacobian_mode
    split_ifs with h
    · simpa using h
    · simpa using h
  · unfold jacobian
    cases hmode : jacobian_mode in_size out_size
    · exact hf
    · exact hr

/-- C5: `two_norm` flattens the container and computes the Euclidean norm of the
ravelled vector; on a container whose ravelled size is 0 it returns exactly `0`
with zero tangent — the constant branch is taken, so the custom derivative rule
`_two_norm_jvp` never fires and no division occurs. -/
theorem C5_two_norm_empty_branch (x tx : PyTree) :
    (x.flatten.length = 0 → two_norm x = 0 ∧ two_norm_jvp x tx = (0, 0)) ∧
    (x.flatten.length ≠ 0 → two_norm x = _two_norm x.flatten ∧
      two_norm_jvp x tx = _two_norm_jvp x.flatten tx.flatten) := by
  constructor
  · intro h
    constructor
    · simp [two_norm, h]
    · simp [two_norm_jvp, h]
  · intro h
    constructor
    · simp only [two_norm]
      rw [if_neg h]
    · simp only [two_norm_jvp]
      rw [if_neg h]

/-- C5 witness: the empty branch on a container with one size-0 leaf, and the
norm branch on a singleton container. -/
theorem C5_two_norm_empty_branch_witness :
    two_norm [([] : Leaf)] = 0 ∧ two_norm_jvp [([] : Leaf)] [([] : Leaf)] = (0, 0) ∧
    two_norm [[(3 : ℂ)]] = _two_norm [(3 : ℂ)] :=
  ⟨((C5_two_norm_empty_branch [([] : Leaf)] [([] : Leaf)]).1 (by simp)).1,
   ((C5_two_norm_empty_branch [([] : Leaf)] [([] : Leaf)]).1 (by simp)).2,
   ((C5_two_norm_empty_branch [[(3 : ℂ)]] [[(0 : ℂ)]]).2 (by simp)).1⟩

theorem mapM_eq_some_map {α β : Type} (f : α → Option β) (g : α → β)
    (l : List α) (h : ∀ a ∈ l, f a = some (g a)) : l.mapM f = some (l.map g) := by
  induction l with
  | nil => rfl
  | cons a l ih =>
    rw [List.mapM_cons, h a (List.mem_cons_self a l),
      ih fun b hb => h b (List.mem_cons_of_mem a hb)]
    rfl

/-- C6: `tree_dot` fails with a shape error whenever the two containers have
differing leaf counts; when leaf counts (and the leaf shapes, which `jnp.vdot`
itself requires) agree it returns the sum over leaves of the leaf-wise inner
products. -/
theorem C6_tree_dot_shapes (a b : PyTree) :
    (a.length ≠ b.length → tree_dot a b = none) ∧
    (a.length = b.length →
      (∀ p ∈ a.zip b, p.1.length = p.2.length) →
      tree_dot a b =
        some (((a.zip b).map fun p =>
          (List.zipWith (fun u v => star u * v) p.1 p.2).sum).sum)) := by
  constructor
  · intro h
    simp [tree_dot, h]
  · intro h hp
    have hall : ∀ p ∈ a.zip b,
        jnp_vdot p.1 p.2 =
          some ((List.zipWith (fun u v => star u * v) p.1 p.2).sum) := by
      intro p hmem
      simp [jnp_vdot, hp p hmem]
    unfold tree_dot
    rw [if_pos h, mapM_eq_some_map _ _ _ hall]
    rfl

/-- C6 witness: a leaf-count mismatch errors; two matching two-leaf containers
produce the sum of leaf-wise inner products. -/
theorem C6_tree_dot_shapes_witness :
    tree_dot [[(1 : ℂ)]] [] = none ∧
    tree_dot [[(1 : ℂ)], [(2 : ℂ)]] [[(3 : ℂ)], [(5 : ℂ)]] =
      some (((([[(1 : ℂ)], [(2 : ℂ)]] : PyTree).zip ([[(3 : ℂ)], [(5 : ℂ)]] : PyTree)).map
        fun p => (List.zipWith (fun u v => star u * v) p.1 p.2).sum).sum) :=
  ⟨(C6_tree_dot_shapes [[(1 : ℂ)]] []).1 (by simp),
   (C6_tree_dot_shapes [[(1 : ℂ)], [(2 : ℂ)]] [[(3 : ℂ)], [(5 : ℂ)]]).2 (by simp)
     (by intro p hp; fin_cases hp <;> rfl)⟩

/-- C7: `inexact_asarray` always produces an inexact (floating/complex) dtype;
an already-inexact result dtype is kept, anything else is promoted to the
default floating dtype (`float64` when 64-bit mode is on, else `float32`); and
its custom derivative rule makes the derivative of the cast equal to the cast of
the derivative. -/
theorem C7_inexact_asarray_dtype (x64 : Bool) (x : JValue) :
    (inexact_asarray x64 x).dtype.isInexact = true ∧
    (x.dtype.isInexact = true → inexact_asarray x64 x = _asarray x.dtype x) ∧
    (x.dtype.isInexact = false →
      inexact_asarray x64 x = _asarray (default_floating_dtype x64) x) ∧
    (∀ (d : DType) (tx : JValue),
      _asarray_jvp d x tx = (_asarray d x, _asarray d tx)) := by
  refine ⟨?_, fun h => ?_, fun h => ?_, fun d tx => rfl⟩
  · cases hx : x.dtype.isInexact with
    | true => simp [inexact_asarray, _asarray, hx]
    | false =>
      have hdef : inexact_asarray x64 x = _asarray (default_floating_dtype x64) x := by
        simp [inexact_asarray, hx]
      rw [hdef]
      cases x64 <;> rfl
  · simp [inexact_asarray, h]
  · simp [inexact_asarray, h]

/-- C7 witness: an `int32` input is promoted to `float32` when 64-bit mode is
off, and a `float32` input keeps its dtype. -/
theorem C7_inexact_asarray_dtype_witness :
    (inexact_asarray false { dtype := DType.int32, val := 2 }).dtype.isInexact = true ∧
    inexact_asarray false { dtype := DType.int32, val := 2 } =
      _asarray (default_floating_dtype false) { dtype := DType.int32, val := 2 } ∧
    inexact_asarray true { dtype := DType.float32, val := 2 } =
      _asarray DType.float32 { dtype := DType.float32, val := 2 } :=
  ⟨(C7_inexact_asarray_dtype false { dtype := DType.int32, val := 2 }).1,
   (C7_inexact_asarray_dtype false { dtype := DType.int32, val := 2 }).2.2.1 rfl,
   (C7_inexact_asarray_dtype true { dtype := DType.float32, val := 2 }).2.1 rfl⟩

/-- C8: one call through the memoized `cached_eval_shape` returns exactly what
an uncached direct shape evaluation at the structural signature returns, the
cache-validity invariant is preserved, and the cache stays within its 128-entry
bound — so the caching changes no observable result. -/
theorem C8_cached_eval_shape_transparent {A K V : Type} [DecidableEq K]
    (sig : A → K) (eval : K → V) (cache : List (K × V)) (x : A)
    (hv : cacheOK eval cache) (hs : cache.length ≤ 128) :
    (cached_eval_shape sig eval cache x).1 = eval (sig x) ∧
    cacheOK eval (cached_eval_shape sig eval cache x).2 ∧
    (cached_eval_shape sig eval cache x).2.length ≤ 128 := by
  unfold cached_eval_shape lruCall
  cases hfind : cache.find? (fun p => decide (p.1 = sig x)) with
  | none =>
    refine ⟨rfl, ?_, ?_⟩
    · intro p hp
      have hp' : p ∈ (sig x, eval (sig x)) :: cache :=
        (List.take_sublist _ _).subset hp
      rcases List.mem_cons.mp hp' with h1 | h1
      · rw [h1]
      · exact hv p h1
    · rw [List.length_take]
      exact min_le_left _ _
  | some p =>
    have hmem : p ∈ cache := List.mem_of_find?_eq_some hfind
    have hkey : p.1 = sig x := by
      have hps := List.find?_some hfind
      exact of_decide_eq_true hps
    refine ⟨by show p.2 = eval (sig x); rw [hv p hmem, hkey], ?_, ?_⟩
    · intro q hq
      rcases List.mem_cons.mp hq with h1 | h1
      · rw [h1]; exact hv p hmem
      · exact hv q ((List.eraseP_sublist _).subset h1)
    · have hlen : (cache.eraseP fun q => decide (q.1 = sig x)).length
          = cache.length - 1 :=
        List.length_eraseP_of_mem hmem (by simp [hkey])
      have hpos : 0 < cache.length := List.length_pos_of_mem hmem
      simp only [List.length_cons, hlen]
      omega

/-- C8 witness: one call on an empty cache, with the identity signature and a
concrete evaluation function. -/
theorem C8_cached_eval_shape_transparent_witness :
    (cached_eval_shape (fun n : ℕ => n) (fun n : ℕ => n + 1) [] 7).1 = 8 ∧
    cacheOK (fun n : ℕ => n + 1)
      (cached_eval_shape (fun n : ℕ => n) (fun n : ℕ => n + 1) [] 7).2 ∧
    (cached_eval_shape (fun n : ℕ => n) (fun n : ℕ => n + 1) [] 7).2.length ≤ 128 := by
  have h := C8_cached_eval_shape_transparent (fun n : ℕ => n) (fun n : ℕ => n + 1)
    [] 7 (fun p hp => absurd hp (List.not_mem_nil p)) (by simp)
  exact ⟨h.1, h.2.1, h.2.2⟩

/-- C9: `two_norm` always returns a real, non-negative scalar — also on
complex-valued leaves — equal to the square root of the sum of `|z|²` over all
elements: the squares are computed as `real(x * conj(x))`, so the result is
never complex. -/
theorem C9_two_norm_real_nonneg (x : PyTree) :
    two_norm x = Real.sqrt ((x.flatten.map Complex.normSq).sum) ∧
    0 ≤ two_norm x := by
  have key : ∀ v : Leaf, _two_norm v = Real.sqrt ((v.map Complex.normSq).sum) := by
    intro v
    unfold _two_norm
    have hz : ∀ z : ℂ, (z * star z).re = Complex.normSq z := fun z => by
      rw [Complex.star_def, Complex.mul_conj, Complex.ofReal_re]
    simp only [hz]
  have h2 : two_norm x = Real.sqrt ((x.flatten.map Complex.normSq).sum) := by
    unfold two_norm
    by_cases h : x.flatten.length = 0
    · rw [if_pos h, List.length_eq_zero.mp h]
      simp
    · rw [if_neg h, key]
  exact ⟨h2, by rw [h2]; exact Real.sqrt_nonneg _⟩

theorem foldl_max_hoist (l : List ℝ) (a b : ℝ) :
    l.foldl max (max a b) = max a (l.foldl max b) := by
  induction l generalizing b with
  | nil => rfl
  | cons c t ih => rw [List.foldl_cons, List.foldl_cons, max_assoc, ih]

theorem max?_cons_eq_max (a : ℝ) (l : List ℝ) (b : ℝ) (h : l.max? = some b) :
    (a :: l).max? = some (max a b) := by
  cases l with
  | nil => exact absurd h (by simp)
  | cons c t =>
    have hb : t.foldl max c = b := Option.some.inj h
    show some ((c :: t).foldl max a) = some (max a b)
    rw [List.foldl_cons, foldl_max_hoist, hb]

theorem max?_append_eq_max (a b : ℝ) (t1 t2 : List ℝ) :
    ((a :: t1) ++ (b :: t2)).max? = some (max (t1.foldl max a) (t2.foldl max b)) := by
  show some ((t1 ++ b :: t2).foldl max a) = _
  rw [List.foldl_append, List.foldl_cons, foldl_max_hoist]

theorem mapM_jnp_max_abs_none (x : PyTree) (h : ([] : Leaf) ∈ x) :
    x.mapM jnp_max_abs = none := by
  induction x with
  | nil => cases h
  | cons l t ih =>
    rw [List.mapM_cons]
    rcases List.mem_cons.mp h with h1 | h1
    · rw [← h1]
      rfl
    · have ht := ih h1
      cases hl : jnp_max_abs l with
      | none => rfl
      | some v =>
        show (t.mapM jnp_max_abs >>= fun bs => pure (v :: bs)) = none
        rw [ht]
        rfl

theorem max?_append_eq (u v : List ℝ) (mu mv : ℝ)
    (hu : u.max? = some mu) (hv : v.max? = some mv) :
    (u ++ v).max? = some (max mu mv) := by
  cases u with
  | nil => exact absurd hu (by simp)
  | cons a t1 =>
    cases v with
    | nil => exact absurd hv (by simp)
    | cons b t2 =>
      rw [max?_append_eq_max, Option.some.inj hu, Option.some.inj hv]

theorem max_norm_eq_claimed_aux (x : PyTree) :
    x ≠ [] → ([] : Leaf) ∉ x →
    ∃ ms mval, x.mapM jnp_max_abs = some ms ∧ ms.max? = some mval ∧
      (x.flatten.map Complex.abs).max? = some mval := by
  induction x with
  | nil => intro hne _; exact absurd rfl hne
  | cons l t ih =>
    intro _ hnil
    have hl : l ≠ [] := by
      intro hleq
      apply hnil
      subst hleq
      exact List.mem_cons_self _ _
    obtain ⟨ml, hml⟩ : ∃ ml, jnp_max_abs l = some ml := by
      cases l with
      | nil => exact absurd rfl hl
      | cons c rest => exact ⟨(rest.map Complex.abs).foldl max (Complex.abs c), rfl⟩
    cases t with
    | nil =>
      refine ⟨[ml], ml, ?_, rfl, ?_⟩
      · rw [List.mapM_cons, hml]
        rfl
      · have hflat : (l :: ([] : PyTree)).flatten = l := by simp
        rw [hflat]
        exact hml
    | cons l2 t2 =>
      obtain ⟨ms, mt, hms, hmsmax, hflatmax⟩ :=
        ih (by simp) (fun hmem => hnil (List.mem_cons_of_mem _ hmem))
      refine ⟨ml :: ms, max ml mt, ?_, ?_, ?_⟩
      · rw [List.mapM_cons, hml, hms]
        rfl
      · exact max?_cons_eq_max ml ms mt hmsmax
      · have hflat : (l :: (l2 :: t2) : PyTree).flatten
            = l ++ ((l2 :: t2 : PyTree)).flatten := rfl
        rw [hflat, List.map_append]
        exact max?_append_eq _ _ ml mt hml hflatmax

/-- C10 counterexample: the container `[[], [1]]` has two leaves — at least
one — yet `max_norm` fails (`none`), while the maximum absolute value over all
its elements, the value the claim predicts, is `1`. -/
theorem C10_max_norm_counterexample :
    max_norm [([] : Leaf), [(1 : ℂ)]] = none ∧
    claimed_max_norm [([] : Leaf), [(1 : ℂ)]] = some 1 ∧
    ([([] : Leaf), [(1 : ℂ)]] : PyTree).length = 2 := by
  refine ⟨?_, ?_, rfl⟩
  · have h := mapM_jnp_max_abs_none [([] : Leaf), [(1 : ℂ)]] (List.mem_cons_self _ _)
    unfold max_norm
    rw [h]
    rfl
  · show some (Complex.abs 1) = some 1
    simp

/-- C10 amended: `max_norm` fails on a container with zero leaves (the
reduction over an empty list of per-leaf maxima has no initial value) and also
on any container containing a zero-size leaf; on every container with at least
one leaf, all leaves non-empty, it returns the maximum absolute value over all
leaves. `two_norm`, in contrast, returns `0` on the empty container. -/
theorem C10_max_norm_amended (x : PyTree) :
    (x = [] → max_norm x = none) ∧
    (([] : Leaf) ∈ x → max_norm x = none) ∧
    (x ≠ [] → ([] : Leaf) ∉ x → max_norm x = claimed_max_norm x) ∧
    two_norm [] = 0 := by
  refine ⟨fun h => by rw [h]; rfl, fun h => ?_, fun h1 h2 => ?_, rfl⟩
  · unfold max_norm
    rw [mapM_jnp_max_abs_none x h]
    rfl
  · obtain ⟨ms, mval, hms, hmsmax, hflatmax⟩ := max_norm_eq_claimed_aux x h1 h2
    unfold max_norm claimed_max_norm
    rw [hms]
    show ms.max? = _
    rw [hmsmax, hflatmax]

/-- C10 amended witness: concrete instances of each branch. -/
theorem C10_max_norm_amended_witness :
    max_norm ([] : PyTree) = none ∧
    max_norm [([] : Leaf)] = none ∧
    max_norm [[(1 : ℂ)], [(2 : ℂ)]] = claimed_max_norm [[(1 : ℂ)], [(2 : ℂ)]] :=
  ⟨(C10_max_norm_amended []).1 rfl,
   (C10_max_norm_amended [([] : Leaf)]).2.1 (List.mem_cons_self _ _),
   (C10_max_norm_amended [[(1 : ℂ)], [(2 : ℂ)]]).2.2.1 (by simp) (by simp)⟩
